import Mathlib

/-!
Verification development for the UCSL repository (files `ucsl/ucsl_classifier.py`
and `main.py`).  The Python code is shallowly embedded: matrices are lists of
rows over `ℚ` (exact idealization of the float arithmetic) or, where Euclidean
norms are essential (Gram-Schmidt, expectation step), vectors in a real inner
product space.  External collaborators (sklearn's SVC / LogisticRegression /
KMeans / GaussianMixture fits, the spectral consensus, the ARI metric and the
numpy random generator) are out-of-scope per the spec's §6 and are passed in as
deterministic function parameters; a few helpers that live in `ucsl/utils.py`
(a file not present in the sources) are modelled from the spec and marked as
such in their doc comments.
-/

/-! ## Generic list and numeric helpers -/

/-- Index bookkeeping for `np.argmax`: `bi`/`bv` are the best index and value so
far, `i` the index of the head of the remaining list.  Strict `<` keeps the
first occurrence of the maximum, as numpy does. -/
def argmaxAux {α : Type} [LinearOrder α] : ℕ → α → ℕ → List α → ℕ
  | bi, _, _, [] => bi
  | bi, bv, i, x :: xs => if bv < x then argmaxAux i x (i + 1) xs else argmaxAux bi bv (i + 1) xs

/-- Embedding of `np.argmax` on a vector (first index attaining the maximum;
numpy raises on an empty vector, here the total function returns 0). -/
def argmaxIdx {α : Type} [LinearOrder α] : List α → ℕ
  | [] => 0
  | x :: xs => argmaxAux 0 x 1 xs

/-- Embedding of `np.rint` on an exact rational: round to the nearest integer,
rounding halves to the nearest even integer. -/
def rint (q : ℚ) : ℚ :=
  let f : ℤ := ⌊q⌋
  let r : ℚ := q - (f : ℚ)
  if r < 1 / 2 then (f : ℚ)
  else if 1 / 2 < r then (f : ℚ) + 1
  else if f % 2 = 0 then (f : ℚ) else (f : ℚ) + 1

/-- Entrywise `np.rint` on a row. -/
def rintRow (row : List ℚ) : List ℚ := row.map rint

/-- Modelled from the spec: `utils.one_hot_encode` (file `ucsl/utils.py` is not
among the sources); the spec's §3 describes hard rows as one-hot rows, so a
label `i` becomes the `i`-th standard basis row of length `K`. -/
def oneHotRow : ℕ → ℕ → List ℚ
  | 0, _ => []
  | K + 1, 0 => 1 :: List.replicate K 0
  | K + 1, i + 1 => 0 :: oneHotRow K i

/-- Modelled from the spec: `utils.one_hot_encode` applied to a label vector. -/
def one_hot_encode (labels : List ℕ) (n_classes : ℕ) : List (List ℚ) :=
  labels.map (oneHotRow n_classes)

/-- Inner product of two rows (`x @ w` for equal-length rows). -/
def dot (a b : List ℚ) : ℚ := (List.zipWith (· * ·) a b).sum

/-- Squared Euclidean distance between two rows (`np.sum((a - b)**2)`). -/
def sqDist (a b : List ℚ) : ℚ := (List.zipWith (fun u v => (u - v) ^ 2) a b).sum

/-- Embedding of `np.max` over a batch vector (numpy raises on an empty batch;
the total function returns 0 there and callers guard emptiness). -/
def maxListQ : List ℚ → ℚ
  | [] => 0
  | x :: xs => xs.foldl max x

/-- Embedding of `np.mean(rows, 0)`: the entrywise mean of a list of rows. -/
def meanRowsQ (rows : List (List ℚ)) : List ℚ :=
  match rows with
  | [] => []
  | r :: rs => (rs.foldl (fun acc row => List.zipWith (· + ·) acc row) r).map
      (fun s => s / ((rows.length : ℚ)))

/-- Mean of column `j` of a matrix (`np.mean(X, 0)[j]`). -/
def colMean (X : List (List ℚ)) (j : ℕ) : ℚ :=
  (X.map (fun r => r.getD j 0)).sum / ((X.length : ℚ))

/-- First index of a list element satisfying the predicate, if any. -/
def firstHitIdx {α : Type} (p : α → Bool) : List α → Option ℕ
  | [] => none
  | x :: xs => if p x then some 0 else (firstHitIdx p xs).map (· + 1)

/-- Map over a list together with the position, starting at offset `i`. -/
def mapWithIdx {α β : Type} (f : ℕ → α → β) : ℕ → List α → List β
  | _, [] => []
  | i, x :: xs => f i x :: mapWithIdx f (i + 1) xs

/-! ## Python outcomes

Distinguishes a value returned normally from a raised exception, and a
normally returned ordinary value from the `NotImplementedError` *class*
returned as a value (which is what the `else` branches of the clustering
dispatch in `ucsl_classifier.py` do). -/

/-- Value returned normally by a Python function: either an ordinary value or
the `NotImplementedError` exception class returned as a first-class object. -/
inductive PyVal (α : Type) where
  | val (a : α)
  | notImplementedErrorCls
deriving DecidableEq

/-- Outcome of a Python call: a normal return or a raised exception. -/
inductive PyOutcome (α : Type) where
  | returns (v : α)
  | raises (msg : String)
deriving DecidableEq

/-! ## The `run_EM` control flow (`ucsl_classifier.py`, lines 461-537)

The external trainers and the ARI metric drive each iteration; the loop's own
decisions (checkpointing into the sentinel `-1` slots, the stability break)
depend only on the per-iteration products, which are therefore given as an
oracle stream `List (IterData β γ δ)`: `basis`/`method`/`seps` are the
orthonormal basis, the fitted clustering model and the (coefficients,
intercepts) pair produced by the iteration's expectation/maximization steps,
`cluster_index` the positive-sample argmax assignment after the iteration, and
`consistency` the Adjusted Rand Index between the previous and new hard
assignments (an external metric, spec §6). -/

/-- Products of one EM iteration, as produced by the external trainers. -/
structure IterData (β γ δ : Type) where
  basis : β
  method : γ
  seps : δ
  cluster_index : List ℕ
  consistency : ℚ
deriving DecidableEq

/-- The mutable state `run_EM` threads through its loop: the three sentinel
`-1` dictionary slots (absent keys are `none`), the current positive-sample
cluster index, and the local `best_cluster_consistency`. -/
structure RunEMState (β γ δ : Type) where
  bestBasis : Option β
  bestMethod : Option γ
  bestSeps : Option δ
  ci : List ℕ
  bestC : ℚ
deriving DecidableEq

/-- One iteration of the `run_EM` loop body (lines 493-533):
the coefficient/intercept dictionaries are re-created (line 508-509), which
deletes any `-1` entry from an earlier checkpoint; `expectation_step` stores
the fresh basis under `-1` unconditionally (line 406) and, for the two
Gaussian-mixture methods, the fresh clustering model under `-1` as well
(lines 424/429); the checkpoint (lines 528-533) fires only when the iteration's
ARI strictly exceeds the running best. -/
def runEMStep {β γ δ : Type} (isGMM : Bool) (st : RunEMState β γ δ) (it : IterData β γ δ) :
    RunEMState β γ δ :=
  let st1 : RunEMState β γ δ :=
    { bestBasis := some it.basis
      bestMethod := if isGMM then some it.method else st.bestMethod
      bestSeps := none
      ci := it.cluster_index
      bestC := st.bestC }
  if st1.bestC < it.consistency then
    { bestBasis := some it.basis
      bestMethod := some it.method
      bestSeps := some it.seps
      ci := it.cluster_index
      bestC := it.consistency }
  else st1

/-- The `for iteration in range(self.n_iterations)` loop with the stability
break (line 534-535); also returns the number of iterations executed. -/
def runEMLoop {β γ δ : Type} (isGMM : Bool) (threshold : ℚ) :
    RunEMState β γ δ → List (IterData β γ δ) → RunEMState β γ δ × ℕ
  | st, [] => (st, 0)
  | st, it :: rest =>
    let st1 := runEMStep isGMM st it
    if threshold < it.consistency then (st1, 1)
    else
      let r := runEMLoop isGMM threshold st1 rest
      (r.1, r.2 + 1)

/-- Embedding of `run_EM` (lines 461-537): `finalCall` is `consensus == -1`
(the final refinement call issued by `clustering_ensembling`), which lowers the
initial `best_cluster_consistency` from 1 to 0; `snap0` holds the sentinel `-1`
slots as the caller left them and `ci0` the cluster index argument. -/
def run_EM {β γ δ : Type} (isGMM : Bool) (threshold : ℚ) (finalCall : Bool)
    (snap0 : Option β × Option γ × Option δ) (ci0 : List ℕ)
    (iters : List (IterData β γ δ)) : RunEMState β γ δ × ℕ :=
  runEMLoop isGMM threshold
    { bestBasis := snap0.1, bestMethod := snap0.2.1, bestSeps := snap0.2.2
      ci := ci0, bestC := if finalCall then 0 else 1 } iters

/-- Floor-max of a list: the running `best_cluster_consistency` of `run_EM`
equals the maximum of its initial floor and the ARI values seen so far. -/
def floorMax (floor : ℚ) (cs : List ℚ) : ℚ := cs.foldl max floor

/-- The prefix of the iteration stream that the `run_EM` loop actually
executes: everything up to and including the first iteration whose ARI exceeds
the stability threshold (the `break` at line 534-535), or the whole stream. -/
def executedIters {β γ δ : Type} (threshold : ℚ) : List (IterData β γ δ) → List (IterData β γ δ)
  | [] => []
  | it :: rest =>
    if threshold < it.consistency then [it] else it :: executedIters threshold rest

/-- Concrete iteration record used by the `run_EM` examples: its ARI value 0 is
inside the metric's range and below both initial consistency floors. -/
def cexIter0 : IterData ℕ ℕ ℕ :=
  { basis := 7, method := 8, seps := 9, cluster_index := [], consistency := 0 }

/-! ## Weighting policies

`run` applies the policy after initialization (lines 299-304, using `np.rint`
for 'hard'); `run_EM` applies it after each expectation step (lines 517-523,
using `one_hot_encode(argmax)` for 'hard'), and `clustering_ensembling` repeats
the latter (lines 589-594). -/

/-- Negative-row policy at initialization (`run`, lines 299-302). -/
def runPolicyNegRow (negW : String) (K : ℕ) (row : List ℚ) : List ℚ :=
  if negW = "uniform" then row.map (fun _ => 1 / (K : ℚ))
  else if negW = "hard" then rintRow row
  else row

/-- Positive-row policy at initialization (`run`, lines 303-304). -/
def runPolicyPosRow (posW : String) (row : List ℚ) : List ℚ :=
  if posW = "hard" then rintRow row else row

/-- Negative-row policy after an expectation step (`run_EM`, lines 518-521). -/
def emPolicyNegRow (negW : String) (K : ℕ) (row : List ℚ) : List ℚ :=
  if negW = "uniform" then row.map (fun _ => 1 / (K : ℚ))
  else if negW = "hard" then oneHotRow K (argmaxIdx row)
  else row

/-- Positive-row policy after an expectation step (`run_EM`, lines 522-523). -/
def emPolicyPosRow (posW : String) (K : ℕ) (row : List ℚ) : List ℚ :=
  if posW = "hard" then oneHotRow K (argmaxIdx row) else row

/-- Matrix-level weighting application at initialization (`run`, lines
299-304): the fancy-index assignments touch exactly the rows whose index lies
in `neg` resp. `pos`. -/
def applyPolicyRun (negW posW : String) (K : ℕ) (pos neg : List ℕ)
    (S : List (List ℚ)) : List (List ℚ) :=
  let S1 := mapWithIdx (fun i row => if i ∈ neg then runPolicyNegRow negW K row else row) 0 S
  mapWithIdx (fun i row => if i ∈ pos then runPolicyPosRow posW row else row) 0 S1

/-- Matrix-level weighting application after an expectation step (`run_EM`
lines 517-523 and `clustering_ensembling` lines 589-594). -/
def applyPolicyEM (negW posW : String) (K : ℕ) (pos neg : List ℕ)
    (S : List (List ℚ)) : List (List ℚ) :=
  let S1 := mapWithIdx (fun i row => if i ∈ neg then emPolicyNegRow negW K row else row) 0 S
  mapWithIdx (fun i row => if i ∈ pos then emPolicyPosRow posW K row else row) 0 S1

/-! ## The fitted model and the prediction engine
(`ucsl_classifier.py`, lines 150-279) -/

/-- The trained artifacts `predict` and friends read: `coefficients`/
`intercepts` are the per-cluster separators (`self.coefficients[c][0]`,
`self.intercepts[c][0]`), `orthonormal_basis` the sentinel `-1` basis,
`barycenters` the stored projected barycenters, and `gmmPredictProba` the
`predict_proba` operation of the retained clustering model
`self.clustering_method[-1]` (an external collaborator, spec §6). -/
structure UCSLModel where
  n_clusters : ℕ
  label_to_cluster : ℕ
  clustering_method_name : String
  coefficients : List (List ℚ)
  intercepts : List ℚ
  orthonormal_basis : List (List ℚ)
  barycenters : List (List ℚ)
  gmmPredictProba : List (List ℚ) → List (List ℚ)

/-- Embedding of `predict_clusters` (lines 255-279): project `X` through the
retained basis, then dispatch on the clustering-method name; the `else` branch
(line 277) returns the `NotImplementedError` class as a value. -/
def predict_clusters (m : UCSLModel) (X : List (List ℚ)) :
    PyOutcome (PyVal (List (List ℚ))) :=
  let X_proj := X.map fun x => m.orthonormal_basis.map fun b => dot x b
  if m.clustering_method_name = "k_means" then
    PyOutcome.returns (PyVal.val (X_proj.map fun xp =>
      let dinv := (List.range m.n_clusters).map fun c =>
        1 / (sqDist xp (m.barycenters.getD c []) + 1 / 100000)
      dinv.map fun q => q / dinv.sum))
  else if m.clustering_method_name = "full_gaussian_mixture" ∨
      m.clustering_method_name = "spherical_gaussian_mixture" then
    PyOutcome.returns (PyVal.val (m.gmmPredictProba X_proj))
  else
    PyOutcome.returns PyVal.notImplementedErrorCls

/-- Embedding of `compute_distances_to_hyperplanes` (lines 234-253):
`X @ coefficients[c][0] + intercepts[c][0]` per cluster. -/
def compute_distances_to_hyperplanes (m : UCSLModel) (X : List (List ℚ)) :
    List (List ℚ) :=
  X.map fun x => (List.range m.n_clusters).map fun c =>
    dot x (m.coefficients.getD c []) + m.intercepts.getD c 0

/-- The raw per-sample sums first stored into `y_pred[:, label_to_cluster]`
(line 227): for each sample, the sum over clusters of (cluster-membership
probability times separator margin). -/
def combined_margins (K : ℕ) (Q D : List (List ℚ)) : List ℚ :=
  List.zipWith (fun q d => ((List.range K).map fun c => q.getD c 0 * d.getD c 0).sum) Q D

/-- Modelled from the spec: `utils.sigmoid` (file `ucsl/utils.py` is not among
the sources); §4.5 squashes the combined margin "through a logistic/sigmoid",
so the standard logistic function is used. -/
noncomputable def sigmoid (x : ℝ) : ℝ := 1 / (1 + Real.exp (-x))

/-- Embedding of `predict_classif_proba` (lines 210-232): the raw combined
margins are scaled by their batch maximum (`np.max` raises on an empty batch),
squashed through the sigmoid into column `label_to_cluster`, and the other
column is the complement.  An unrecognized clustering method makes line 227
subscript the returned `NotImplementedError` class, a `TypeError`. -/
noncomputable def predict_classif_proba (m : UCSLModel) (X : List (List ℚ)) :
    PyOutcome (List (List ℝ)) :=
  match predict_clusters m X with
  | PyOutcome.returns (PyVal.val Q) =>
    if X.isEmpty then PyOutcome.raises "ValueError"
    else
      let D := compute_distances_to_hyperplanes m X
      let combined := combined_margins m.n_clusters Q D
      let mx := maxListQ combined
      PyOutcome.returns (combined.map fun v =>
        if m.label_to_cluster = 1 then
          [1 - sigmoid (((v / mx : ℚ) : ℝ)), sigmoid (((v / mx : ℚ) : ℝ))]
        else
          [sigmoid (((v / mx : ℚ) : ℝ)), 1 - sigmoid (((v / mx : ℚ) : ℝ))])
  | PyOutcome.returns PyVal.notImplementedErrorCls => PyOutcome.raises "TypeError"
  | PyOutcome.raises s => PyOutcome.raises s

/-- Embedding of `predict` (lines 150-180): classification is the argmax of
`predict_classif_proba`, clustering the argmax of `predict_clusters`, and the
cluster prediction of every sample whose ground-truth label (when `y_true` is
given) or classification decision (otherwise) equals `1 - label_to_cluster` is
overwritten with the sentinel `-1`. -/
noncomputable def predict (m : UCSLModel) (X : List (List ℚ))
    (y_true : Option (List ℤ)) : PyOutcome (List ℤ × List ℤ) :=
  match predict_classif_proba m X, predict_clusters m X with
  | PyOutcome.raises s, _ => PyOutcome.raises s
  | _, PyOutcome.raises s => PyOutcome.raises s
  | _, PyOutcome.returns PyVal.notImplementedErrorCls => PyOutcome.raises "TypeError"
  | PyOutcome.returns probaClsf, PyOutcome.returns (PyVal.val Qc) =>
    let yPredClsf : List ℤ := probaClsf.map fun r => (argmaxIdx r : ℤ)
    let yPredClusters : List ℤ := Qc.map fun r => (argmaxIdx r : ℤ)
    match y_true with
    | none => PyOutcome.returns (yPredClsf,
        List.zipWith (fun lbl c => if lbl = 1 - (m.label_to_cluster : ℤ) then -1 else c)
          yPredClsf yPredClusters)
    | some yt => PyOutcome.returns (yt,
        List.zipWith (fun lbl c => if lbl = 1 - (m.label_to_cluster : ℤ) then -1 else c)
          yt yPredClusters)

/-- Embedding of `predict_proba` (lines 182-208): like `predict` but the whole
cluster-probability row of a masked sample is overwritten with `-1`; the first
component is the classification probability matrix or the given `y_true`. -/
noncomputable def predict_proba (m : UCSLModel) (X : List (List ℚ))
    (y_true : Option (List ℤ)) :
    PyOutcome ((List (List ℝ) ⊕ List ℤ) × List (List ℚ)) :=
  match predict_classif_proba m X, predict_clusters m X with
  | PyOutcome.raises s, _ => PyOutcome.raises s
  | _, PyOutcome.raises s => PyOutcome.raises s
  | _, PyOutcome.returns PyVal.notImplementedErrorCls => PyOutcome.raises "TypeError"
  | PyOutcome.returns probaClsf, PyOutcome.returns (PyVal.val Qc) =>
    let yPredClsf : List ℤ := probaClsf.map fun r => (argmaxIdx r : ℤ)
    match y_true with
    | none => PyOutcome.returns (Sum.inl probaClsf,
        List.zipWith (fun lbl row =>
            if lbl = 1 - (m.label_to_cluster : ℤ) then row.map (fun _ => (-1 : ℚ)) else row)
          yPredClsf Qc)
    | some yt => PyOutcome.returns (Sum.inr yt,
        List.zipWith (fun lbl row =>
            if lbl = 1 - (m.label_to_cluster : ℤ) then row.map (fun _ => (-1 : ℚ)) else row)
          yt Qc)

/-- Embedding of `initialize_clustering` (lines 314-352), here under the
shorter name `init_clustering`.  The external `KMeans` and
`GaussianMixture` fits are the collaborator parameters `kmPredict` (predict on
the full set after fitting on the positives) and `gmmProbaSph`/`gmmProbaFull`
(`predict_proba` on the full set of a mixture fitted on the positives, which
receive the fitting subset first).  The `else` branch (line 348) returns the
`NotImplementedError` class as a value. -/
def init_clustering (kmPredict : List (List ℚ) → List ℕ)
    (gmmProbaSph gmmProbaFull : List (List ℚ) → List (List ℚ) → List (List ℚ))
    (name : String) (K : ℕ) (X : List (List ℚ)) (index_positives : List ℕ) :
    PyOutcome (PyVal (List (List ℚ) × List ℕ)) :=
  let Xpos := index_positives.map fun i => X.getD i []
  if name = "k_means" then
    let S := one_hot_encode (kmPredict X) K
    PyOutcome.returns (PyVal.val (S, index_positives.map fun i => argmaxIdx (S.getD i [])))
  else if name = "spherical_gaussian_mixture" then
    let S := gmmProbaSph Xpos X
    PyOutcome.returns (PyVal.val (S, index_positives.map fun i => argmaxIdx (S.getD i [])))
  else if name = "full_gaussian_mixture" then
    let S := gmmProbaFull Xpos X
    PyOutcome.returns (PyVal.val (S, index_positives.map fun i => argmaxIdx (S.getD i [])))
  else
    PyOutcome.returns PyVal.notImplementedErrorCls

/-! ## Gram-Schmidt orthonormalization and the expectation step
(`ucsl_classifier.py`, lines 376-459), over an arbitrary real inner product
space; `np.linalg.norm` is the norm and `np.dot` the inner product. -/

section InnerEmbedding

variable {E : Type} [NormedAddCommGroup E] [InnerProductSpace ℝ E]

/-- Real inner product, written as a function to keep elaboration explicit. -/
def rinner (x y : E) : ℝ := inner x y

/-- Residual of a candidate `v` against the accepted basis (line 453):
`v - sum(dot(v, b) * b for b in basis)`. -/
def gsStep (basis : List E) (v : E) : E :=
  v - (basis.map fun b => rinner v b • b).sum

/-- Distinctiveness score of direction `v` (at position `i` of the input):
mean over the other directions of the norm of `v` minus its projection on them
(lines 441-447). -/
noncomputable def gsScore (dirs : List E) (i : ℕ) (v : E) : ℝ :=
  let rs := (dirs.enum.filter fun p => p.1 != i).map fun p => ‖v - rinner v p.2 • p.2‖
  rs.sum / (rs.length : ℝ)

/-- Insertion into a list sorted by descending first component. -/
noncomputable def insertByScoreDesc (x : ℝ × E) : List (ℝ × E) → List (ℝ × E)
  | [] => [x]
  | y :: ys => if x.1 ≤ y.1 then y :: insertByScoreDesc x ys else x :: y :: ys

/-- Sort by descending first component (insertion sort). -/
noncomputable def sortByScoreDesc (l : List (ℝ × E)) : List (ℝ × E) :=
  l.foldr insertByScoreDesc []

/-- The reordering `directions_basis[np.array(scores).argsort()[::-1], :]`
(line 448): directions sorted by descending distinctiveness score. -/
noncomputable def gsOrder (dirs : List E) : List E :=
  (sortByScoreDesc (dirs.enum.map fun p => (gsScore dirs p.1 p.2, p.2))).map Prod.snd

/-- The Gram-Schmidt accumulation loop (lines 451-458): a residual `w` is
accepted as `w / ‖w‖` if `‖w‖ * noise_tolerance_threshold > 1` once at least 2
vectors are accepted, and if `‖w‖ > 1e-2` before that. -/
noncomputable def gsLoop (ntt : ℝ) : List E → List E → List E
  | basis, [] => basis
  | basis, v :: rest =>
    if 2 ≤ basis.length then
      if 1 < ‖gsStep basis v‖ * ntt then
        gsLoop ntt (basis ++ [‖gsStep basis v‖⁻¹ • gsStep basis v]) rest
      else gsLoop ntt basis rest
    else
      if 1 / 100 < ‖gsStep basis v‖ then
        gsLoop ntt (basis ++ [‖gsStep basis v‖⁻¹ • gsStep basis v]) rest
      else gsLoop ntt basis rest

/-- Embedding of `graam_schmidt` (lines 439-459). -/
noncomputable def graam_schmidt (ntt : ℝ) (directions_basis : List E) : List E :=
  gsLoop ntt [] (gsOrder directions_basis)

/-- Row scaling over `ℝ`. -/
def scaleRowR (c : ℝ) (r : List ℝ) : List ℝ := r.map fun v => c * v

/-- Squared Euclidean distance between two real rows. -/
def sqDistR (a b : List ℝ) : ℝ := (List.zipWith (fun u v => (u - v) ^ 2) a b).sum

/-- Entrywise mean of a list of real rows (`np.mean(rows, 0)`). -/
noncomputable def meanRowsR (rows : List (List ℝ)) : List ℝ :=
  match rows with
  | [] => []
  | r :: rs => (rs.foldl (fun acc row => List.zipWith (· + ·) acc row) r).map
      (fun s => s / ((rows.length : ℝ)))

/-- Embedding of `expectation_step` (lines 376-437): normalize the per-cluster
directions, orthonormalize them, project all samples, compute the weighted
positive centroids, and dispatch on the clustering-method name.  The external
`KMeans`/`GaussianMixture` fits are the collaborator parameters `kmCentersFit`
(cluster centers from a fit seeded at the centroids) and
`gmmProbaSph`/`gmmProbaFull` (membership probabilities on the projected set of
a mixture fitted on the projected positives, seeded at the centroids).  The
`else` branch (line 431) returns the `NotImplementedError` class as a value. -/
noncomputable def expectation_step (E : Type) [NormedAddCommGroup E] [InnerProductSpace ℝ E]
    (kmCentersFit : List (List ℝ) → List (List ℝ) → List (List ℝ))
    (gmmProbaSph gmmProbaFull :
      List (List ℝ) → List (List ℝ) → List (List ℝ) → List (List ℝ))
    (name : String) (ntt : ℝ) (K : ℕ)
    (coefficients : List E) (X : List E) (S : List (List ℝ))
    (index_positives : List ℕ) :
    PyOutcome (PyVal (List E × List (List ℝ) × List ℕ)) :=
  let directions := coefficients.map fun w => ‖w‖⁻¹ • w
  let basis := graam_schmidt ntt directions
  let X_proj : List (List ℝ) := X.map fun x => basis.map fun b => rinner x b
  let Xpos : List (List ℝ) := index_positives.map fun i => X_proj.getD i []
  let centroids := (List.range K).map fun c =>
    meanRowsR (index_positives.map fun i =>
      scaleRowR ((S.getD i []).getD c 0) (X_proj.getD i []))
  if name = "k_means" then
    let centers := kmCentersFit centroids Xpos
    let Q := X_proj.map fun xp =>
      let dinv := (List.range K).map fun c =>
        1 / (sqDistR xp (centers.getD c []) + 1 / 100000)
      dinv.map fun q => q / dinv.sum
    PyOutcome.returns (PyVal.val (basis, Q, index_positives.map fun i => argmaxIdx (Q.getD i [])))
  else if name = "spherical_gaussian_mixture" then
    let Q := gmmProbaSph centroids Xpos X_proj
    PyOutcome.returns (PyVal.val (basis, Q, index_positives.map fun i => argmaxIdx (Q.getD i [])))
  else if name = "full_gaussian_mixture" then
    let Q := gmmProbaFull centroids Xpos X_proj
    PyOutcome.returns (PyVal.val (basis, Q, index_positives.map fun i => argmaxIdx (Q.getD i [])))
  else
    PyOutcome.returns PyVal.notImplementedErrorCls

end InnerEmbedding

/-! ## HYDRA (`main.py`): label-mapping prologue of `fit`, `init_S`, `update_S` -/

/-- Sequential in-place label rewriting as `HYDRA.fit` performs it (lines
46-48): each `y_train[y_train == original] = new` reads the array as already
rewritten by the earlier pairs, so later pairs see earlier replacements. -/
def hydraApplyMapping (pairs : List (ℤ × ℤ)) (y : List ℤ) : List ℤ :=
  pairs.foldl (fun cur p => cur.map fun v => if v = p.1 then p.2 else v) y

/-- Label rewriting as `UCSL_C.fit` performs it (lines 141-143): each mask
`y_train == original` is computed on the caller's original array while the
assignment lands in the fresh copy, so pairs never cascade. -/
def ucslApplyMapping (pairs : List (ℤ × ℤ)) (y : List ℤ) : List ℤ :=
  pairs.foldl (fun cur p => List.zipWith (fun orig c => if orig = p.1 then p.2 else c) y cur) y

/-- Content of the caller's `y_train` buffer after `HYDRA.fit` (lines 45-48):
with a mapping present the rewrites happen in the caller's array itself. -/
def HYDRA.fitCallerY (mapping : Option (List (ℤ × ℤ))) (y : List ℤ) : List ℤ :=
  match mapping with
  | some pairs => hydraApplyMapping pairs y
  | none => y

/-- Content of the caller's `y_train` buffer after `UCSL_C.fit` (lines
140-143): the mapping is applied to `y_train.copy()` only. -/
def UCSL_C.fitCallerY (_mapping : Option (List (ℤ × ℤ))) (y : List ℤ) : List ℤ := y

/-- The label vector `UCSL_C.fit` actually passes to `run` (lines 141-146);
with no mapping the constructor default is the identity `{0: 0, 1: 1}`. -/
def UCSL_C.fitYForRun (mapping : Option (List (ℤ × ℤ))) (y : List ℤ) : List ℤ :=
  ucslApplyMapping (mapping.getD [(0, 0), (1, 1)]) y

/-- Embedding of `HYDRA.init_S` (`main.py`, lines 291-383).  For
`n_clusters == 1` (lines 292-296): `S` is the all-ones single column,
`cluster_index = argmax` over all rows, and the stored barycenter is
`np.mean(X, 0)[None, 1]`, i.e. the single number `colMean X 1` (mean over ALL
samples of feature index 1), wrapped as one row here to keep the return type
uniform with the general `K ≥ 2` path.  The general path's initialization
strategies draw on the numpy RNG and the SVC/KMeans externals, so their
positive-sample weights arrive as the collaborator parameter `seedWeights`
(lines 300-375); the rest of the path (uniform `S`, overwrite of the positive
rows, `argmax` over all rows, weighted barycenters) is embedded directly. -/
def HYDRA.init_S (seedWeights : List (List ℚ)) (X : List (List ℚ)) (y_polytope : List ℤ)
    (index_positives : List ℕ) (n_clusters : ℕ) :
    List (List ℚ) × List ℕ × List (List ℚ) :=
  if n_clusters = 1 then
    let S := List.replicate y_polytope.length (List.replicate 1 ((1 : ℚ) / 1))
    (S, S.map argmaxIdx, [[colMean X 1]])
  else
    let S0 := List.replicate y_polytope.length
      (List.replicate n_clusters (1 / (n_clusters : ℚ)))
    let S := mapWithIdx (fun i row =>
      if i ∈ index_positives then seedWeights.getD (index_positives.indexOf i) row else row) 0 S0
    let bary := (List.range n_clusters).map fun c =>
      meanRowsQ (index_positives.map fun i =>
        (X.getD i []).map fun v => (S.getD i []).getD c 0 * v)
    (S, S.map argmaxIdx, bary)

/-- Embedding of `HYDRA.update_S` (`main.py`, lines 225-288).  For
`n_clusters == 1` (lines 226-229): the indexed rows of `S` are set to 1 and the
indexed entries of `cluster_index` to 0.  The general clustering strategies
involve the external SVC/KMeans/PCA fits, so the matrix `Q` they would assign
to `S[index]` arrives as the collaborator parameter `clusteringQ`. -/
def HYDRA.update_S (n_clusters : ℕ) (clusteringQ : List (List ℚ)) (S : List (List ℚ))
    (index : List ℕ) (cluster_index : List ℕ) : List (List ℚ) × List ℕ :=
  if n_clusters = 1 then
    (mapWithIdx (fun i row => if i ∈ index then row.map (fun _ => (1 : ℚ)) else row) 0 S,
     mapWithIdx (fun i c => if i ∈ index then 0 else c) 0 cluster_index)
  else
    (mapWithIdx (fun i row =>
      if i ∈ index then clusteringQ.getD (index.indexOf i) row else row) 0 S,
     mapWithIdx (fun i c =>
      if i ∈ index then argmaxIdx (clusteringQ.getD (index.indexOf i) []) else c) 0 cluster_index)

/-! ## The `UCSL_C.fit` pipeline (`ucsl_classifier.py`, lines 128-148, 281-312,
566-601), with the external, RNG-consuming trainers as deterministic
collaborator functions of an explicit generator state. -/

/-- Iteration products of the `ℚ`-level EM oracle: basis and clustering model
are projected matrices, the separators a (coefficients, intercepts) pair. -/
abbrev IterQ := IterData (List (List ℚ)) (List (List ℚ)) (List (List ℚ) × List ℚ)

/-- Sentinel `-1` slots of the `ℚ`-level state. -/
abbrev SnapQ :=
  Option (List (List ℚ)) × Option (List (List ℚ)) × Option (List (List ℚ) × List ℚ)

/-- External collaborators of `fit`, as deterministic functions threading the
numpy generator state (an abstract `ℕ`): `initClustering` is
`initialize_clustering` with its external clustering fits, `emTrace` the
per-iteration products of the external maximization/expectation trainers and
the ARI metric for one `run_EM` call, `spectral` the
`compute_spectral_clustering_consensus` fusion, and `probaFromLabels` the
deterministic `predict_clusters_proba_from_cluster_labels` recomputation. -/
structure FitCollab where
  initClustering : ℕ → List (List ℚ) → List ℕ → (List (List ℚ) × List ℕ) × ℕ
  emTrace : ℕ → List (List ℚ) → List ℕ → List IterQ × ℕ
  spectral : List (List ℕ) → List ℕ
  probaFromLabels : List ℕ → List (List ℚ)

/-- Constructor configuration of `UCSL_C` relevant to `fit`. -/
structure FitParams where
  n_clusters : ℕ
  label_to_cluster : ℤ
  n_consensus : ℕ
  stability_threshold : ℚ
  negative_weighting : String
  positive_weighting : String
  isGMM : Bool
  training_label_mapping : Option (List (ℤ × ℤ))

/-- Binary polytope relabeling (`run`, lines 283-287). -/
def polytopeLabels (y : List ℤ) (ltc : ℤ) : List ℤ :=
  y.map fun v => if v = ltc then 1 else -1

/-- Indices of positive samples (`np.where(y_polytope == 1)[0]`). -/
def positivesOf (yp : List ℤ) : List ℕ :=
  (yp.enum.filter fun p => p.2 == 1).map Prod.fst

/-- Indices of negative samples (`np.where(y_polytope == -1)[0]`). -/
def negativesOf (yp : List ℤ) : List ℕ :=
  (yp.enum.filter fun p => p.2 == -1).map Prod.fst

/-- The `for consensus in range(n_consensus)` loop of `run` (lines 296-309):
initialization, weighting policy, one `run_EM` call per restart; returns the
per-restart hard assignments (the columns of `clustering_assignments`), the
sentinel slots and the final generator state. -/
def consensusRuns (collab : FitCollab) (P : FitParams) (X : List (List ℚ))
    (pos neg : List ℕ) : ℕ → SnapQ → ℕ → List (List ℕ) × SnapQ × ℕ
  | 0, snap, rng => ([], snap, rng)
  | n + 1, snap, rng =>
    let r0 := collab.initClustering rng X pos
    let S1 := applyPolicyRun P.negative_weighting P.positive_weighting P.n_clusters pos neg r0.1.1
    let r1 := collab.emTrace r0.2 S1 r0.1.2
    let r := (run_EM P.isGMM P.stability_threshold false snap r0.1.2 r1.1).1
    let rest := consensusRuns collab P X pos neg n (r.bestBasis, r.bestMethod, r.bestSeps) r1.2
    (r.ci :: rest.1, rest.2)

/-- Trained artifacts at the end of `fit`. -/
structure FitOut where
  seps : Option (List (List ℚ) × List ℚ)
  basis : Option (List (List ℚ))
  method : Option (List (List ℚ))
  cluster_labels : List ℕ
  assignments : List (List ℕ)
  barycenters : List (List ℚ)

/-- Embedding of `UCSL_C.fit` (lines 128-148) composed with `run` (281-312) and
`clustering_ensembling` (566-601): label mapping on a copy, polytope labels,
`n_consensus` restarts, spectral consensus fusion, one final `run_EM` with the
consensus floor 0, and barycenters of the projected positive samples per final
cluster. -/
def UCSL_C.fit (collab : FitCollab) (P : FitParams) (seed : ℕ)
    (X : List (List ℚ)) (y_train : List ℤ) : FitOut :=
  let y := ucslApplyMapping (P.training_label_mapping.getD [(0, 0), (1, 1)]) y_train
  let yp := polytopeLabels y P.label_to_cluster
  let pos := positivesOf yp
  let neg := negativesOf yp
  let runs := consensusRuns collab P X pos neg P.n_consensus (none, none, none) seed
  let assignments := runs.1
  if P.n_consensus ≤ 1 then
    { seps := runs.2.1.2.2, basis := runs.2.1.1, method := runs.2.1.2.1
      cluster_labels := assignments.headD [], assignments := assignments, barycenters := [] }
  else
    let labels := collab.spectral assignments
    let S := collab.probaFromLabels labels
    let S1 := applyPolicyEM P.negative_weighting P.positive_weighting P.n_clusters pos neg S
    let tr := collab.emTrace runs.2.2 S1 labels
    let r := (run_EM P.isGMM P.stability_threshold true runs.2.1 labels tr.1).1
    let basisFinal := r.bestBasis.getD []
    let Xproj := X.map fun x => basisFinal.map (dot x)
    let bary := (List.range P.n_clusters).map fun c =>
      meanRowsQ (((List.range pos.length).filter fun j => r.ci.getD j 0 == c).map fun j =>
        Xproj.getD (pos.getD j 0) [])
    { seps := r.bestSeps, basis := r.bestBasis, method := r.bestMethod
      cluster_labels := r.ci, assignments := assignments, barycenters := bary }

/-! ## Concrete fixtures used by the example evaluations -/

/-- Small trained model with a recognized clustering method. -/
def mWit : UCSLModel :=
  { n_clusters := 1, label_to_cluster := 1, clustering_method_name := "k_means"
    coefficients := [[1]], intercepts := [0], orthonormal_basis := [[1]]
    barycenters := [[0]], gmmPredictProba := fun M => M.map fun _ => [1] }

/-- The same model configured with an unrecognized clustering method. -/
def mBadCluster : UCSLModel := { mWit with clustering_method_name := "dbscan" }

/-- Trivial deterministic collaborators. -/
def collabWit : FitCollab :=
  { initClustering := fun r _ _ => (([], []), r), emTrace := fun r _ _ => ([], r)
    spectral := fun _ => [], probaFromLabels := fun _ => [] }

/-- Small parameter record. -/
def PWit : FitParams :=
  { n_clusters := 2, label_to_cluster := 1, n_consensus := 2
    stability_threshold := 9 / 10, negative_weighting := "soft"
    positive_weighting := "hard", isGMM := true, training_label_mapping := none }

/-! ## Helper lemmas -/

theorem firstHitIdx_lt {α : Type} (p : α → Bool) :
    ∀ (l : List α) (i : ℕ), firstHitIdx p l = some i → i < l.length := by
  intro l
  induction l with
  | nil => intro i h; simp [firstHitIdx] at h
  | cons x xs ih =>
    intro i h
    by_cases hp : p x
    · simp [firstHitIdx, hp] at h
      simp [← h]
    · simp only [firstHitIdx, hp, if_neg, Bool.false_eq_true, ite_false] at h
      rcases hf : firstHitIdx p xs with _ | j
      · rw [hf] at h; exact Option.noConfusion h
      · rw [hf] at h
        have h2 : j + 1 = i := by simpa using h
        have := ih j hf
        simp only [List.length_cons]
        omega

theorem runEMLoop_count {β γ δ : Type} (isGMM : Bool) (thr : ℚ) :
    ∀ (iters : List (IterData β γ δ)) (st : RunEMState β γ δ),
      (runEMLoop isGMM thr st iters).2 =
        (match firstHitIdx (fun it => decide (thr < it.consistency)) iters with
         | some i => i + 1
         | none => iters.length) := by
  intro iters
  induction iters with
  | nil => intro st; simp [runEMLoop, firstHitIdx]
  | cons it rest ih =>
    intro st
    by_cases h : thr < it.consistency
    · simp [runEMLoop, firstHitIdx, h]
    · rcases hf : firstHitIdx (fun it => decide (thr < it.consistency)) rest with _ | j <;>
        simp [runEMLoop, firstHitIdx, h, hf, ih]

theorem runEMLoop_final {β γ δ : Type} (isGMM : Bool) (thr : ℚ) :
    ∀ (iters : List (IterData β γ δ)) (st : RunEMState β γ δ), iters ≠ [] →
      ∃ pre last, executedIters thr iters = pre ++ [last] ∧
        (runEMLoop isGMM thr st iters).1.bestBasis = some last.basis ∧
        (isGMM = true → (runEMLoop isGMM thr st iters).1.bestMethod = some last.method) ∧
        (runEMLoop isGMM thr st iters).1.bestSeps =
          (if floorMax st.bestC (pre.map IterData.consistency) < last.consistency
           then some last.seps else none) ∧
        (runEMLoop isGMM thr st iters).1.bestC =
          floorMax st.bestC ((pre ++ [last]).map IterData.consistency) := by
  intro iters
  induction iters with
  | nil => intro st hne; exact absurd rfl hne
  | cons it rest ih =>
    intro st _
    by_cases hbrk : thr < it.consistency
    · have hloop : (runEMLoop isGMM thr st (it :: rest)).1 = runEMStep isGMM st it := by
        simp [runEMLoop, hbrk]
      refine ⟨[], it, by simp [executedIters, hbrk], ?_, ?_, ?_, ?_⟩
      · rw [hloop]
        by_cases hc : st.bestC < it.consistency <;> simp [runEMStep, hc]
      · intro hg
        rw [hloop]
        by_cases hc : st.bestC < it.consistency <;> simp [runEMStep, hc, hg]
      · rw [hloop]
        by_cases hc : st.bestC < it.consistency <;> simp [runEMStep, hc, floorMax]
      · rw [hloop]
        by_cases hc : st.bestC < it.consistency
        · simp [runEMStep, hc, floorMax]
          exact le_of_lt hc
        · simp [runEMStep, hc, floorMax]
          exact not_lt.mp hc
    · rcases rest with _ | ⟨it2, rest2⟩
      · have hloop : (runEMLoop isGMM thr st [it]).1 = runEMStep isGMM st it := by
          simp [runEMLoop, hbrk]
        refine ⟨[], it, by simp [executedIters, hbrk], ?_, ?_, ?_, ?_⟩
        · rw [hloop]
          by_cases hc : st.bestC < it.consistency <;> simp [runEMStep, hc]
        · intro hg
          rw [hloop]
          by_cases hc : st.bestC < it.consistency <;> simp [runEMStep, hc, hg]
        · rw [hloop]
          by_cases hc : st.bestC < it.consistency <;> simp [runEMStep, hc, floorMax]
        · rw [hloop]
          by_cases hc : st.bestC < it.consistency
          · simp [runEMStep, hc, floorMax]
            exact le_of_lt hc
          · simp [runEMStep, hc, floorMax]
            exact not_lt.mp hc
      · obtain ⟨pre2, last2, hex2, hb2, hm2, hs2, hc2⟩ :=
          ih (runEMStep isGMM st it) (by simp)
        have hloop : (runEMLoop isGMM thr st (it :: it2 :: rest2)).1 =
            (runEMLoop isGMM thr (runEMStep isGMM st it) (it2 :: rest2)).1 := by
          simp [runEMLoop, hbrk]
        have hstc : (runEMStep isGMM st it).bestC = max st.bestC it.consistency := by
          by_cases hc : st.bestC < it.consistency
          · simp [runEMStep, hc]
            exact le_of_lt hc
          · simp [runEMStep, hc]
            exact not_lt.mp hc
        have hfm : ∀ cs : List ℚ,
            floorMax st.bestC (it.consistency :: cs) =
            floorMax (runEMStep isGMM st it).bestC cs := by
          intro cs
          simp [floorMax, hstc]
        refine ⟨it :: pre2, last2, ?_, ?_, ?_, ?_, ?_⟩
        · rw [show executedIters thr (it :: it2 :: rest2) =
              it :: executedIters thr (it2 :: rest2) from by simp [executedIters, hbrk],
            hex2, List.cons_append]
        · rw [hloop]
          exact hb2
        · intro hg
          rw [hloop]
          exact hm2 hg
        · rw [hloop, hs2]
          rw [List.map_cons, hfm]
        · rw [hloop, hc2]
          rw [List.cons_append, List.map_cons, hfm]

theorem argmaxAux_lt {α : Type} [LinearOrder α] (n : ℕ) :
    ∀ (xs : List α) (bi : ℕ) (bv : α) (i : ℕ), bi < n → i + xs.length ≤ n →
      argmaxAux bi bv i xs < n := by
  intro xs
  induction xs with
  | nil => intro bi bv i hbi _; simpa [argmaxAux] using hbi
  | cons x xs ih =>
    intro bi bv i hbi hlen
    simp only [List.length_cons] at hlen
    simp only [argmaxAux]
    by_cases hc : bv < x
    · rw [if_pos hc]; exact ih i x (i + 1) (by omega) (by omega)
    · rw [if_neg hc]; exact ih bi bv (i + 1) hbi (by omega)

theorem argmaxIdx_lt_length {α : Type} [LinearOrder α] (l : List α) (h : l ≠ []) :
    argmaxIdx l < l.length := by
  cases l with
  | nil => exact absurd rfl h
  | cons x xs =>
    simp only [argmaxIdx, List.length_cons]
    exact argmaxAux_lt (xs.length + 1) xs 0 x 1 (by omega) (by omega)

theorem oneHotRow_length : ∀ (K i : ℕ), (oneHotRow K i).length = K := by
  intro K
  induction K with
  | zero => intro i; simp [oneHotRow]
  | succ K ih =>
    intro i
    cases i with
    | zero => simp [oneHotRow]
    | succ j => simp [oneHotRow, ih]

theorem oneHotRow_sum : ∀ (K i : ℕ), i < K → (oneHotRow K i).sum = 1 := by
  intro K
  induction K with
  | zero => intro i h; omega
  | succ K ih =>
    intro i h
    cases i with
    | zero => simp [oneHotRow, List.sum_replicate]
    | succ j => have := ih j (by omega); simp [oneHotRow, this]


/-! ## Claim theorems -/

/-- Claim C1, counterexample.  In a normal restart (floor 1) whose single
iteration has ARI 0, no checkpoint fires (`0 > 1` is false), yet the sentinel
`-1` basis changes to the iteration's basis and the sentinel `-1`
coefficients/intercepts entry is destroyed by the per-iteration dictionary
reset; and in a final refinement call (floor 0) whose single iteration has
ARI 0, no checkpoint fires either, so no checkpoint is guaranteed there. -/
theorem run_EM_best_snapshot_cex :
    (run_EM true (9 / 10) false ((some 1 : Option ℕ), (some 2 : Option ℕ),
        (some 3 : Option ℕ)) [] [cexIter0]).1.bestSeps = none ∧
    (run_EM true (9 / 10) false ((some 1 : Option ℕ), (some 2 : Option ℕ),
        (some 3 : Option ℕ)) [] [cexIter0]).1.bestBasis = some 7 ∧
    ¬ ((1 : ℚ) < cexIter0.consistency) ∧ ¬ ((0 : ℚ) < cexIter0.consistency) ∧
    (run_EM true (9 / 10) true ((none : Option ℕ), (none : Option ℕ),
        (none : Option ℕ)) [] [cexIter0]).1.bestSeps = none := by
  refine ⟨?_, ?_, ?_, ?_, ?_⟩ <;>
    norm_num [run_EM, runEMLoop, runEMStep, cexIter0]

/-- Claim C1, amended: in every `run_EM` call, the sentinel `-1`
coefficients/intercepts change exclusively at checkpoint iterations — an
iteration writes them iff its ARI strictly exceeds the running best, which
equals the maximum of the initial floor (1 for a normal restart, 0 for the
final refinement call) and the ARI values of the previously executed
iterations — and the per-iteration dictionary reset deletes them otherwise, so
after the call they hold the last executed iteration's separators iff that
iteration checkpointed and are absent otherwise; the sentinel `-1` orthonormal
basis (and, for the Gaussian-mixture methods, the `-1` clustering model) is
instead overwritten by every iteration's expectation step regardless of
checkpointing, ending as the last executed iteration's; and the floor-0 final
call checkpoints iff some iteration's ARI is positive, not unconditionally. -/
theorem run_EM_best_snapshot_frame {β γ δ : Type} (isGMM : Bool) (thr : ℚ) (finalCall : Bool)
    (snap0 : Option β × Option γ × Option δ) (ci0 : List ℕ) (iters : List (IterData β γ δ))
    (hne : iters ≠ []) :
    (∀ (st : RunEMState β γ δ) (it : IterData β γ δ),
      (runEMStep isGMM st it).bestBasis = some it.basis ∧
      (isGMM = true → (runEMStep isGMM st it).bestMethod = some it.method) ∧
      (st.bestC < it.consistency → (runEMStep isGMM st it).bestSeps = some it.seps) ∧
      (¬ st.bestC < it.consistency → (runEMStep isGMM st it).bestSeps = none)) ∧
    ∃ pre last, executedIters thr iters = pre ++ [last] ∧
      (run_EM isGMM thr finalCall snap0 ci0 iters).1.bestBasis = some last.basis ∧
      (isGMM = true →
        (run_EM isGMM thr finalCall snap0 ci0 iters).1.bestMethod = some last.method) ∧
      (run_EM isGMM thr finalCall snap0 ci0 iters).1.bestSeps =
        (if floorMax (if finalCall then 0 else 1) (pre.map IterData.consistency) <
            last.consistency then some last.seps else none) ∧
      (run_EM isGMM thr finalCall snap0 ci0 iters).1.bestC =
        floorMax (if finalCall then 0 else 1) ((pre ++ [last]).map IterData.consistency) := by
  constructor
  · intro st it
    refine ⟨?_, ?_, ?_, ?_⟩
    · by_cases hc : st.bestC < it.consistency <;> simp [runEMStep, hc]
    · intro hg
      by_cases hc : st.bestC < it.consistency <;> simp [runEMStep, hc, hg]
    · intro hc
      simp [runEMStep, hc]
    · intro hc
      simp [runEMStep, hc]
  · obtain ⟨pre, last, hex, hb, hm, hs, hc2⟩ := runEMLoop_final isGMM thr iters
      ⟨snap0.1, snap0.2.1, snap0.2.2, ci0, if finalCall then 0 else 1⟩ hne
    exact ⟨pre, last, hex, hb, hm, hs, hc2⟩

/-- Witness for the amended claim C1 at a concrete one-iteration run. -/
theorem run_EM_best_snapshot_frame_witness :
    (([cexIter0] : List (IterData ℕ ℕ ℕ)) ≠ []) ∧
    ((∀ (st : RunEMState ℕ ℕ ℕ) (it : IterData ℕ ℕ ℕ),
        (runEMStep true st it).bestBasis = some it.basis ∧
        (true = true → (runEMStep true st it).bestMethod = some it.method) ∧
        (st.bestC < it.consistency → (runEMStep true st it).bestSeps = some it.seps) ∧
        (¬ st.bestC < it.consistency → (runEMStep true st it).bestSeps = none)) ∧
      ∃ pre last, executedIters (9 / 10) [cexIter0] = pre ++ [last] ∧
        (run_EM true (9 / 10) false ((some 1 : Option ℕ), (some 2 : Option ℕ),
            (some 3 : Option ℕ)) [] [cexIter0]).1.bestBasis = some last.basis ∧
        (true = true →
          (run_EM true (9 / 10) false ((some 1 : Option ℕ), (some 2 : Option ℕ),
              (some 3 : Option ℕ)) [] [cexIter0]).1.bestMethod = some last.method) ∧
        (run_EM true (9 / 10) false ((some 1 : Option ℕ), (some 2 : Option ℕ),
            (some 3 : Option ℕ)) [] [cexIter0]).1.bestSeps =
          (if floorMax (if false then 0 else 1) (pre.map IterData.consistency) <
              last.consistency then some last.seps else none) ∧
        (run_EM true (9 / 10) false ((some 1 : Option ℕ), (some 2 : Option ℕ),
            (some 3 : Option ℕ)) [] [cexIter0]).1.bestC =
          floorMax (if false then 0 else 1) ((pre ++ [last]).map IterData.consistency)) :=
  ⟨by simp,
    run_EM_best_snapshot_frame true (9 / 10) false (some 1, some 2, some 3) [] [cexIter0]
      (by simp)⟩

/-- Claim C4: a `run_EM` call executes at most as many EM iterations as the
iteration cap (the length of the per-iteration stream, `n_iterations`), and the
number of iterations executed is exactly the position of the first iteration
whose ARI strictly exceeds `stability_threshold` plus one — the loop stops
right there — or the full cap if no iteration's ARI exceeds the threshold; the
cap and this stability early-exit are thus the only termination triggers. -/
theorem runEMLoop_count_le {β γ δ : Type} (isGMM : Bool) (thr : ℚ) :
    ∀ (iters : List (IterData β γ δ)) (st : RunEMState β γ δ),
      (runEMLoop isGMM thr st iters).2 ≤ iters.length := by
  intro iters
  induction iters with
  | nil => intro st; simp [runEMLoop]
  | cons it rest ih =>
    intro st
    by_cases h : thr < it.consistency
    · simp [runEMLoop, h]
    · have := ih (runEMStep isGMM st it)
      simp only [runEMLoop, if_neg h, List.length_cons]
      omega

theorem run_EM_iteration_count {β γ δ : Type} (isGMM : Bool) (thr : ℚ) (finalCall : Bool)
    (snap0 : Option β × Option γ × Option δ) (ci0 : List ℕ)
    (iters : List (IterData β γ δ)) :
    (run_EM isGMM thr finalCall snap0 ci0 iters).2 ≤ iters.length ∧
    (run_EM isGMM thr finalCall snap0 ci0 iters).2 =
      (match firstHitIdx (fun it => decide (thr < it.consistency)) iters with
       | some i => i + 1
       | none => iters.length) := by
  have h2 : (run_EM isGMM thr finalCall snap0 ci0 iters).2 =
      (match firstHitIdx (fun it => decide (thr < it.consistency)) iters with
       | some i => i + 1
       | none => iters.length) :=
    runEMLoop_count isGMM thr iters
      ⟨snap0.1, snap0.2.1, snap0.2.2, ci0, if finalCall then 0 else 1⟩
  exact ⟨runEMLoop_count_le isGMM thr iters
    ⟨snap0.1, snap0.2.1, snap0.2.2, ci0, if finalCall then 0 else 1⟩, h2⟩

/-- Claim C5, counterexample.  A valid positive-sample row `[1/2, 1/2]` (an
admissible soft-clustering output) becomes `[0, 0]` under the 'hard' positive
weighting applied at initialization in `run` (`np.rint` rounds both halves to
the even integer 0), which is not one-hot and does not sum to 1; and under
'uniform' positive weighting the policy in `run_EM` leaves a positive row
`[3/4, 1/4]` unchanged instead of setting it to the uniform `1/K` row. -/
theorem weighting_policy_cex :
    ([(1 : ℚ) / 2, 1 / 2].sum = 1) ∧
    applyPolicyRun "soft" "hard" 2 [0] [] [[1 / 2, 1 / 2]] = [[0, 0]] ∧
    ([(0 : ℚ), 0].sum ≠ 1) ∧
    applyPolicyEM "soft" "uniform" 2 [0] [] [[3 / 4, 1 / 4]] = [[3 / 4, 1 / 4]] ∧
    ([(3 : ℚ) / 4, 1 / 4] ≠ [1 / 2, 1 / 2]) := by
  refine ⟨by norm_num, ?_, by norm_num, ?_, by norm_num⟩
  · norm_num [applyPolicyRun, mapWithIdx, runPolicyPosRow, runPolicyNegRow, rintRow, rint]
  · norm_num [applyPolicyEM, mapWithIdx, emPolicyPosRow, emPolicyNegRow]
    exact fun h => absurd h (by decide)

/-- Claim C5, amended: after the weighting policy of `run_EM`, a positive-
sample row that entered as a distribution (summing to 1) stays untouched under
'soft' and also under 'uniform' weighting (so it still sums to 1, but is not
reset to the uniform `1/K` row), and becomes a genuine one-hot row (a standard
basis row, summing to 1) under 'hard' weighting; at initialization in `run`,
the 'hard' positive policy instead rounds the row entrywise with `np.rint`,
which need not produce a one-hot row. -/
theorem weighting_policy_positive_rows (posW : String) (K : ℕ) (row : List ℚ)
    (hlen : row.length = K) (hK : 1 ≤ K) (hsum : row.sum = 1) :
    (posW ≠ "hard" → emPolicyPosRow posW K row = row ∧ (emPolicyPosRow posW K row).sum = 1) ∧
    (posW = "hard" → ∃ i, i < K ∧ emPolicyPosRow posW K row = oneHotRow K i ∧
      (emPolicyPosRow posW K row).sum = 1) ∧
    runPolicyPosRow "hard" row = rintRow row := by
  have hne : row ≠ [] := by
    intro hrow
    rw [hrow] at hlen
    simp at hlen
    omega
  refine ⟨?_, ?_, by simp [runPolicyPosRow]⟩
  · intro hp
    rw [emPolicyPosRow, if_neg hp]
    exact ⟨rfl, hsum⟩
  · intro hp
    subst hp
    rw [emPolicyPosRow, if_pos rfl]
    have hi : argmaxIdx row < K := hlen ▸ argmaxIdx_lt_length row hne
    exact ⟨argmaxIdx row, hi, rfl, oneHotRow_sum K (argmaxIdx row) hi⟩

/-- Witness for the amended claim C5 at the concrete row `[1, 0]` with 'hard'
positive weighting. -/
theorem weighting_policy_positive_rows_witness :
    (([(1 : ℚ), 0].length = 2) ∧ 1 ≤ 2 ∧ ([(1 : ℚ), 0].sum = 1)) ∧
    ((("hard" : String) ≠ "hard" → emPolicyPosRow "hard" 2 [1, 0] = [1, 0] ∧
        (emPolicyPosRow "hard" 2 [1, 0]).sum = 1) ∧
     (("hard" : String) = "hard" → ∃ i, i < 2 ∧ emPolicyPosRow "hard" 2 [1, 0] = oneHotRow 2 i ∧
        (emPolicyPosRow "hard" 2 [1, 0]).sum = 1) ∧
     runPolicyPosRow "hard" [1, 0] = rintRow [1, 0]) :=
  ⟨⟨by norm_num, by norm_num, by norm_num⟩,
    weighting_policy_positive_rows "hard" 2 [1, 0] (by norm_num) (by norm_num) (by norm_num)⟩

/-- Claim C8: evaluation of the HYDRA `K = 1` path at `X = [[0,0],[2,2]]` with
sample 0 positive.  `init_S` returns the all-ones column and the all-zero
cluster index as claimed, and `update_S` keeps them; but the stored barycenter
is `[[1]]` — `np.mean(X, 0)[None, 1]`, the mean over ALL samples of feature 1
only — whereas the mean of the positive samples' feature vectors is `[0, 0]`. -/
theorem hydra_K1_barycenter_eval :
    HYDRA.init_S [] [[0, 0], [2, 2]] [1, -1] [0] 1 = ([[1], [1]], [0, 0], [[1]]) ∧
    meanRowsQ [[(0 : ℚ), 0]] = [0, 0] ∧
    ([[(1 : ℚ)]] ≠ [[(0 : ℚ), 0]]) ∧
    HYDRA.update_S 1 [] [[1], [1]] [0, 1] [0, 0] = ([[1], [1]], [0, 0]) := by
  refine ⟨?_, by norm_num [meanRowsQ], by norm_num, ?_⟩
  · norm_num [HYDRA.init_S, colMean, argmaxIdx, argmaxAux, List.replicate]
  · norm_num [HYDRA.update_S, mapWithIdx]

/-- Claim C9: refitting with the same seed, the same data and the same
deterministic external trainers is bit-identical — the embedded `fit` consults
nothing besides its collaborators, the seed and the training data. -/
theorem fit_two_run_deterministic (collab : FitCollab) (P : FitParams)
    (s1 s2 : ℕ) (X1 X2 : List (List ℚ)) (y1 y2 : List ℤ)
    (hs : s1 = s2) (hX : X1 = X2) (hy : y1 = y2) :
    UCSL_C.fit collab P s1 X1 y1 = UCSL_C.fit collab P s2 X2 y2 := by
  rw [hs, hX, hy]

/-- Witness for claim C9 at a concrete seed and data set. -/
theorem fit_two_run_deterministic_witness :
    ((0 : ℕ) = 0 ∧ ([] : List (List ℚ)) = [] ∧ ([] : List ℤ) = []) ∧
    UCSL_C.fit collabWit PWit 0 [] [] = UCSL_C.fit collabWit PWit 0 [] [] :=
  ⟨⟨rfl, rfl, rfl⟩, fit_two_run_deterministic collabWit PWit 0 0 [] [] [] [] rfl rfl rfl⟩

/-- Claim C10: `HYDRA.fit` rewrites the mapped labels into the caller's
`y_train` buffer itself (sequentially, so later mapping pairs see earlier
replacements), while `UCSL_C.fit` leaves the caller's buffer untouched and
applies the mapping to an internal copy whose masks read the original labels. -/
theorem fit_y_train_aliasing :
    (∀ (pairs : List (ℤ × ℤ)) (y : List ℤ),
        HYDRA.fitCallerY (some pairs) y = hydraApplyMapping pairs y) ∧
    (∀ (mapping : Option (List (ℤ × ℤ))) (y : List ℤ), UCSL_C.fitCallerY mapping y = y) ∧
    (HYDRA.fitCallerY (some [((0 : ℤ), (1 : ℤ))]) [0] = [1] ∧ ([(1 : ℤ)] ≠ ([0] : List ℤ))) ∧
    (UCSL_C.fitCallerY (some [((0 : ℤ), (1 : ℤ))]) [0] = [0] ∧
     UCSL_C.fitYForRun (some [((0 : ℤ), (1 : ℤ))]) [0] = [1]) ∧
    (hydraApplyMapping [((0 : ℤ), (1 : ℤ)), ((1 : ℤ), (2 : ℤ))] [0] = [2] ∧
     ucslApplyMapping [((0 : ℤ), (1 : ℤ)), ((1 : ℤ), (2 : ℤ))] [0] = [1]) :=
  ⟨fun _ _ => rfl, fun _ _ => rfl, by decide, by decide, by decide⟩

/-- Claim C2: with the unrecognized clustering-method name "dbscan",
`predict_clusters`, `initialize_clustering` and `expectation_step` all RETURN
the `NotImplementedError` class as an ordinary value — none of them raises. -/
theorem unrecognized_clustering_returns_error_class :
    predict_clusters mBadCluster [[1]] = PyOutcome.returns PyVal.notImplementedErrorCls ∧
    init_clustering (fun _ => []) (fun _ _ => []) (fun _ _ => []) "dbscan" 2 [[1]] [0] =
      PyOutcome.returns PyVal.notImplementedErrorCls ∧
    expectation_step ℝ (fun _ _ => []) (fun _ _ _ => []) (fun _ _ _ => []) "dbscan" 10 2
      ([] : List ℝ) ([] : List ℝ) [] [] = PyOutcome.returns PyVal.notImplementedErrorCls ∧
    (∀ s, predict_clusters mBadCluster [[1]] ≠ PyOutcome.raises s) ∧
    (∀ s, expectation_step ℝ (fun _ _ => []) (fun _ _ _ => []) (fun _ _ _ => []) "dbscan" 10 2
      ([] : List ℝ) ([] : List ℝ) [] [] ≠ PyOutcome.raises s) := by
  have h1 : predict_clusters mBadCluster [[1]] =
      PyOutcome.returns PyVal.notImplementedErrorCls := by
    simp [predict_clusters, mBadCluster, mWit]
  have h3 : expectation_step ℝ (fun _ _ => []) (fun _ _ _ => []) (fun _ _ _ => []) "dbscan" 10 2
      ([] : List ℝ) ([] : List ℝ) [] [] = PyOutcome.returns PyVal.notImplementedErrorCls := by
    simp [expectation_step]
  refine ⟨h1, by simp [init_clustering], h3, ?_, ?_⟩
  · intro s h
    rw [h1] at h
    exact PyOutcome.noConfusion h
  · intro s h
    rw [h3] at h
    exact PyOutcome.noConfusion h

section GramSchmidtProofs

variable {E : Type} [NormedAddCommGroup E] [InnerProductSpace ℝ E]

theorem rinner_listSum_left (l : List E) (y : E) :
    rinner l.sum y = (l.map fun x => rinner x y).sum := by
  induction l with
  | nil => simp [rinner]
  | cons a t ih =>
    simp only [List.sum_cons, List.map_cons, rinner] at ih ⊢
    rw [inner_add_left, ih]

theorem sum_proj_eval (v b0 : E) :
    ∀ (basis : List E), (∀ b ∈ basis, ‖b‖ = 1) →
      basis.Pairwise (fun a b => rinner a b = 0) → b0 ∈ basis →
      (basis.map fun b => rinner v b * rinner b b0).sum = rinner v b0 := by
  intro basis
  induction basis with
  | nil => intro _ _ hb; simp at hb
  | cons hd tl ih =>
    intro hn hp hb
    rw [List.pairwise_cons] at hp
    obtain ⟨hhd, htl⟩ := hp
    rw [List.map_cons, List.sum_cons]
    rcases List.mem_cons.mp hb with rfl | hbtl
    · have h1 : rinner b0 b0 = 1 := by
        have hu := hn b0 (List.mem_cons_self _ _)
        rw [rinner, real_inner_self_eq_norm_mul_norm, hu]
        norm_num
      have h2 : (tl.map fun b => rinner v b * rinner b b0).sum = 0 := by
        apply List.sum_eq_zero
        intro x hx
        rw [List.mem_map] at hx
        obtain ⟨b, hbmem, rfl⟩ := hx
        have hz : rinner b0 b = 0 := hhd b hbmem
        have hcomm : rinner b b0 = 0 := by
          rw [rinner, real_inner_comm]
          rw [rinner] at hz
          exact hz
        rw [hcomm, mul_zero]
      rw [h1, h2, mul_one, add_zero]
    · have h1 : rinner hd b0 = 0 := hhd b0 hbtl
      have htln : ∀ b ∈ tl, ‖b‖ = 1 := fun b hb2 => hn b (List.mem_cons_of_mem hd hb2)
      rw [h1, mul_zero, zero_add]
      exact ih htln htl hbtl

theorem gsStep_orth (basis : List E) (v b0 : E)
    (hn : ∀ b ∈ basis, ‖b‖ = 1) (hp : basis.Pairwise fun a b => rinner a b = 0)
    (hb : b0 ∈ basis) : rinner (gsStep basis v) b0 = 0 := by
  have key := sum_proj_eval v b0 basis hn hp hb
  have hmap : (basis.map fun b => rinner v b • b).map (fun x => rinner x b0) =
      basis.map fun b => rinner v b * rinner b b0 := by
    rw [List.map_map]
    congr 1
    funext b
    simp only [Function.comp, rinner]
    rw [real_inner_smul_left]
  rw [gsStep]
  rw [show (rinner (v - (basis.map fun b => rinner v b • b).sum) b0 : ℝ) =
      rinner v b0 - rinner ((basis.map fun b => rinner v b • b).sum) b0 from by
    simp [rinner, inner_sub_left]]
  rw [rinner_listSum_left, hmap, key, sub_self]

theorem gsInv_accept (basis : List E) (v : E)
    (hn : ∀ b ∈ basis, ‖b‖ = 1) (hp : basis.Pairwise fun a b => rinner a b = 0)
    (hpos : 0 < ‖gsStep basis v‖) :
    (∀ b ∈ basis ++ [‖gsStep basis v‖⁻¹ • gsStep basis v], ‖b‖ = 1) ∧
    (basis ++ [‖gsStep basis v‖⁻¹ • gsStep basis v]).Pairwise
      (fun a b => rinner a b = 0) := by
  have hnz : ‖gsStep basis v‖ ≠ 0 := ne_of_gt hpos
  have hu : ‖‖gsStep basis v‖⁻¹ • gsStep basis v‖ = 1 := by
    rw [norm_smul, norm_inv, norm_norm, inv_mul_cancel₀ hnz]
  constructor
  · intro b hbmem
    rcases List.mem_append.mp hbmem with hb1 | hb2
    · exact hn b hb1
    · rw [List.mem_singleton] at hb2
      rw [hb2]
      exact hu
  · rw [List.pairwise_append]
    refine ⟨hp, by simp, ?_⟩
    intro a ha b hbmem
    rw [List.mem_singleton] at hbmem
    subst hbmem
    have hw : rinner (gsStep basis v) a = 0 := gsStep_orth basis v a hn hp ha
    have hw2 : rinner a (gsStep basis v) = 0 := by
      rw [rinner, real_inner_comm]
      rw [rinner] at hw
      exact hw
    rw [rinner, real_inner_smul_right]
    rw [rinner] at hw2
    rw [hw2, mul_zero]

theorem gsLoop_invariant (ntt : ℝ) (hntt : 0 < ntt) :
    ∀ (rest basis : List E),
      (∀ b ∈ basis, ‖b‖ = 1) → basis.Pairwise (fun a b => rinner a b = 0) →
      ((∀ b ∈ gsLoop ntt basis rest, ‖b‖ = 1) ∧
       (gsLoop ntt basis rest).Pairwise (fun a b => rinner a b = 0) ∧
       (gsLoop ntt basis rest).length ≤ basis.length + rest.length) := by
  intro rest
  induction rest with
  | nil => intro basis hn hp; exact ⟨hn, hp, by simp [gsLoop]⟩
  | cons v rest ih =>
    intro basis hn hp
    by_cases h2 : 2 ≤ basis.length
    · by_cases hacc : 1 < ‖gsStep basis v‖ * ntt
      · have hpos : 0 < ‖gsStep basis v‖ := by
          rcases lt_or_eq_of_le (norm_nonneg (gsStep basis v)) with h | h
          · exact h
          · rw [← h, zero_mul] at hacc
            exact absurd hacc (by norm_num)
        obtain ⟨ha1, ha2⟩ := gsInv_accept basis v hn hp hpos
        have hrec := ih (basis ++ [‖gsStep basis v‖⁻¹ • gsStep basis v]) ha1 ha2
        have heq : gsLoop ntt basis (v :: rest) =
            gsLoop ntt (basis ++ [‖gsStep basis v‖⁻¹ • gsStep basis v]) rest := by
          simp only [gsLoop]
          rw [if_pos h2, if_pos hacc]
        rw [heq]
        refine ⟨hrec.1, hrec.2.1, ?_⟩
        have hl := hrec.2.2
        simp [List.length_append] at hl ⊢
        omega
      · have heq : gsLoop ntt basis (v :: rest) = gsLoop ntt basis rest := by
          simp only [gsLoop]
          rw [if_pos h2, if_neg hacc]
        rw [heq]
        have hrec := ih basis hn hp
        refine ⟨hrec.1, hrec.2.1, ?_⟩
        have hl := hrec.2.2
        simp only [List.length_cons]
        omega
    · by_cases hacc : (1 : ℝ) / 100 < ‖gsStep basis v‖
      · have hpos : 0 < ‖gsStep basis v‖ := lt_trans (by norm_num) hacc
        obtain ⟨ha1, ha2⟩ := gsInv_accept basis v hn hp hpos
        have hrec := ih (basis ++ [‖gsStep basis v‖⁻¹ • gsStep basis v]) ha1 ha2
        have heq : gsLoop ntt basis (v :: rest) =
            gsLoop ntt (basis ++ [‖gsStep basis v‖⁻¹ • gsStep basis v]) rest := by
          simp only [gsLoop]
          rw [if_neg h2, if_pos hacc]
        rw [heq]
        refine ⟨hrec.1, hrec.2.1, ?_⟩
        have hl := hrec.2.2
        simp [List.length_append] at hl ⊢
        omega
      · have heq : gsLoop ntt basis (v :: rest) = gsLoop ntt basis rest := by
          simp only [gsLoop]
          rw [if_neg h2, if_neg hacc]
        rw [heq]
        have hrec := ih basis hn hp
        refine ⟨hrec.1, hrec.2.1, ?_⟩
        have hl := hrec.2.2
        simp only [List.length_cons]
        omega

theorem insertByScoreDesc_length (x : ℝ × E) :
    ∀ l : List (ℝ × E), (insertByScoreDesc x l).length = l.length + 1 := by
  intro l
  induction l with
  | nil => simp [insertByScoreDesc]
  | cons y ys ih =>
    simp only [insertByScoreDesc]
    by_cases h : x.1 ≤ y.1
    · rw [if_pos h]
      simp [ih]
    · rw [if_neg h]
      simp

theorem sortByScoreDesc_length (l : List (ℝ × E)) :
    (sortByScoreDesc l).length = l.length := by
  rw [sortByScoreDesc]
  induction l with
  | nil => simp
  | cons y ys ih => simp [List.foldr_cons, insertByScoreDesc_length, ih]

theorem gsOrder_length (dirs : List E) : (gsOrder dirs).length = dirs.length := by
  rw [gsOrder]
  simp [sortByScoreDesc_length, List.enum_length]

end GramSchmidtProofs

/-- Claim C3: on any list of unit-normalized separator directions with a
positive noise tolerance, `graam_schmidt` returns at most as many vectors as it
was given, each of unit norm, pairwise exactly orthogonal (hence with inner
products within the 1e-6 tolerance), and its acceptance guard
`‖w‖ * noise_tolerance_threshold > 1` is exactly the claim's floor
`‖w‖ > 1/noise_tolerance_threshold` (the first-two floor `1e-2` is literal in
the code). -/
theorem graam_schmidt_orthonormal {E : Type} [NormedAddCommGroup E] [InnerProductSpace ℝ E]
    (ntt : ℝ) (hntt : 0 < ntt) (dirs : List E) (hunit : ∀ v ∈ dirs, ‖v‖ = 1) :
    (graam_schmidt ntt dirs).length ≤ dirs.length ∧
    (∀ u ∈ graam_schmidt ntt dirs, ‖u‖ = 1) ∧
    (graam_schmidt ntt dirs).Pairwise (fun u w => rinner u w = 0) ∧
    (graam_schmidt ntt dirs).Pairwise (fun u w => |rinner u w| ≤ 1 / 1000000) ∧
    (∀ w : E, (1 < ‖w‖ * ntt ↔ 1 / ntt < ‖w‖)) := by
  obtain ⟨hn, hp, hlen⟩ := gsLoop_invariant ntt hntt (gsOrder dirs) [] (by simp) (by simp)
  refine ⟨?_, hn, hp, ?_, ?_⟩
  · have hl := hlen
    rw [gsOrder_length] at hl
    simpa [graam_schmidt] using hl
  · exact hp.imp (fun h => by rw [h]; norm_num)
  · intro w
    rw [div_lt_iff₀ hntt]

/-- Witness for claim C3 on the one-direction system `[1]` in `ℝ` with
noise tolerance 10. -/
theorem graam_schmidt_orthonormal_witness :
    ((0 : ℝ) < 10 ∧ ∀ v ∈ [(1 : ℝ)], ‖v‖ = 1) ∧
    ((graam_schmidt 10 [(1 : ℝ)]).length ≤ [(1 : ℝ)].length ∧
     (∀ u ∈ graam_schmidt 10 [(1 : ℝ)], ‖u‖ = 1) ∧
     (graam_schmidt 10 [(1 : ℝ)]).Pairwise (fun u w => rinner u w = 0) ∧
     (graam_schmidt 10 [(1 : ℝ)]).Pairwise (fun u w => |rinner u w| ≤ 1 / 1000000) ∧
     (∀ w : ℝ, (1 < ‖w‖ * 10 ↔ 1 / 10 < ‖w‖))) :=
  ⟨⟨by norm_num, by simp⟩,
    graam_schmidt_orthonormal 10 (by norm_num) [(1 : ℝ)] (by simp)⟩

/-! ## Prediction-engine lemmas -/

theorem map_getD {α β : Type} (f : α → β) (d : β) (da : α) :
    ∀ (l : List α) (i : ℕ), i < l.length → (l.map f).getD i d = f (l.getD i da) := by
  intro l
  induction l with
  | nil => intro i h; simp at h
  | cons x xs ih =>
    intro i h
    cases i with
    | zero => simp
    | succ j =>
      simp only [List.map_cons, List.getD_cons_succ]
      exact ih j (by simpa using h)

theorem zipWith_getD {α β γ : Type} (f : α → β → γ) (d : γ) (da : α) (db : β) :
    ∀ (a : List α) (b : List β) (i : ℕ), i < a.length → i < b.length →
      (List.zipWith f a b).getD i d = f (a.getD i da) (b.getD i db) := by
  intro a
  induction a with
  | nil => intro b i h1 _; simp at h1
  | cons x xs ih =>
    intro b i h1 h2
    cases b with
    | nil => simp at h2
    | cons y ys =>
      cases i with
      | zero => simp
      | succ j =>
        simp only [List.zipWith_cons_cons, List.getD_cons_succ]
        exact ih ys j (by simpa using h1) (by simpa using h2)

theorem getD_mem {α : Type} (l : List α) (i : ℕ) (d : α) (h : i < l.length) :
    l.getD i d ∈ l := by
  rw [List.getD_eq_getElem l d h]
  exact List.getElem_mem h

theorem sigmoid_pos (x : ℝ) : 0 < sigmoid x := by
  rw [sigmoid]
  positivity

theorem sigmoid_lt_one (x : ℝ) : sigmoid x < 1 := by
  rw [sigmoid]
  rw [div_lt_one (by positivity)]
  linarith [Real.exp_pos (-x)]

theorem predict_clusters_ok (m : UCSLModel) (X : List (List ℚ))
    (hname : m.clustering_method_name = "k_means" ∨
      m.clustering_method_name = "spherical_gaussian_mixture" ∨
      m.clustering_method_name = "full_gaussian_mixture")
    (hglen : ∀ M, (m.gmmPredictProba M).length = M.length)
    (hgrow : ∀ M, ∀ r ∈ m.gmmPredictProba M, r.length = m.n_clusters) :
    ∃ Q, predict_clusters m X = PyOutcome.returns (PyVal.val Q) ∧
      Q.length = X.length ∧ ∀ r ∈ Q, r.length = m.n_clusters := by
  rcases hname with h | h | h
  · simp only [predict_clusters]
    rw [h, if_pos rfl]
    refine ⟨_, rfl, by simp, ?_⟩
    intro r hr
    rw [List.mem_map] at hr
    obtain ⟨xp, _, rfl⟩ := hr
    simp
  · simp only [predict_clusters]
    rw [h, if_neg (by decide), if_pos (by decide)]
    refine ⟨_, rfl, by rw [hglen]; simp, ?_⟩
    intro r hr
    exact hgrow _ r hr
  · simp only [predict_clusters]
    rw [h, if_neg (by decide), if_pos (by decide)]
    refine ⟨_, rfl, by rw [hglen]; simp, ?_⟩
    intro r hr
    exact hgrow _ r hr

theorem predict_classif_proba_ok (m : UCSLModel) (X : List (List ℚ))
    (hname : m.clustering_method_name = "k_means" ∨
      m.clustering_method_name = "spherical_gaussian_mixture" ∨
      m.clustering_method_name = "full_gaussian_mixture")
    (hglen : ∀ M, (m.gmmPredictProba M).length = M.length)
    (hgrow : ∀ M, ∀ r ∈ m.gmmPredictProba M, r.length = m.n_clusters)
    (hX : X ≠ []) :
    ∃ Q rows, predict_clusters m X = PyOutcome.returns (PyVal.val Q) ∧
      predict_classif_proba m X = PyOutcome.returns rows ∧
      rows = (combined_margins m.n_clusters Q (compute_distances_to_hyperplanes m X)).map
        (fun v =>
          if m.label_to_cluster = 1 then
            [1 - sigmoid (((v / maxListQ (combined_margins m.n_clusters Q
              (compute_distances_to_hyperplanes m X)) : ℚ) : ℝ)),
             sigmoid (((v / maxListQ (combined_margins m.n_clusters Q
              (compute_distances_to_hyperplanes m X)) : ℚ) : ℝ))]
          else
            [sigmoid (((v / maxListQ (combined_margins m.n_clusters Q
              (compute_distances_to_hyperplanes m X)) : ℚ) : ℝ)),
             1 - sigmoid (((v / maxListQ (combined_margins m.n_clusters Q
              (compute_distances_to_hyperplanes m X)) : ℚ) : ℝ))]) ∧
      rows.length = X.length ∧ Q.length = X.length ∧
      (∀ r ∈ Q, r.length = m.n_clusters) := by
  obtain ⟨Q, hQ, hQlen, hQrow⟩ := predict_clusters_ok m X hname hglen hgrow
  have hclen : (combined_margins m.n_clusters Q
      (compute_distances_to_hyperplanes m X)).length = X.length := by
    simp [combined_margins, compute_distances_to_hyperplanes, hQlen]
  have hXe : X.isEmpty = false := by
    rcases X with _ | ⟨x, xs⟩
    · exact absurd rfl hX
    · rfl
  refine ⟨Q, _, hQ, ?_, rfl, ?_, hQlen, hQrow⟩
  · unfold predict_classif_proba
    rw [hQ]
    simp only [hXe, Bool.false_eq_true, if_false]
  · rw [List.length_map, hclen]

/-- Claim C6: for a fitted model with a recognized clustering method and a
nonempty query batch, `predict_classif_proba` returns one two-entry row per
query sample; each row is a genuine distribution summing exactly to 1 with both
entries strictly inside (0, 1); the entry in column `label_to_cluster` is the
sigmoid of the sample's sum over clusters of cluster-membership probability
times separator margin, divided by the batch maximum of those sums; and the
other column is its complement. -/
theorem predict_classif_proba_rows (m : UCSLModel) (X : List (List ℚ))
    (hname : m.clustering_method_name = "k_means" ∨
      m.clustering_method_name = "spherical_gaussian_mixture" ∨
      m.clustering_method_name = "full_gaussian_mixture")
    (hglen : ∀ M, (m.gmmPredictProba M).length = M.length)
    (hgrow : ∀ M, ∀ r ∈ m.gmmPredictProba M, r.length = m.n_clusters)
    (hltc : m.label_to_cluster ≤ 1) (hX : X ≠ []) :
    ∃ Q rows, predict_clusters m X = PyOutcome.returns (PyVal.val Q) ∧
      predict_classif_proba m X = PyOutcome.returns rows ∧
      rows.length = X.length ∧
      (∀ r ∈ rows, r.length = 2 ∧ r.sum = 1 ∧ ∀ p ∈ r, 0 < p ∧ p < 1) ∧
      (∀ i, i < X.length →
        (rows.getD i []).getD m.label_to_cluster 0 =
          sigmoid ((((combined_margins m.n_clusters Q
              (compute_distances_to_hyperplanes m X)).getD i 0 /
            maxListQ (combined_margins m.n_clusters Q
              (compute_distances_to_hyperplanes m X)) : ℚ) : ℝ)) ∧
        (rows.getD i []).getD (1 - m.label_to_cluster) 0 =
          1 - (rows.getD i []).getD m.label_to_cluster 0) := by
  obtain ⟨Q, rows, hQ, hP, hdef, hlen, hQlen, hQrow⟩ :=
    predict_classif_proba_ok m X hname hglen hgrow hX
  have hltc2 : m.label_to_cluster = 0 ∨ m.label_to_cluster = 1 := by omega
  have hclen : (combined_margins m.n_clusters Q
      (compute_distances_to_hyperplanes m X)).length = X.length := by
    simp [combined_margins, compute_distances_to_hyperplanes, hQlen]
  refine ⟨Q, rows, hQ, hP, hlen, ?_, ?_⟩
  · intro r hr
    rw [hdef, List.mem_map] at hr
    obtain ⟨v, _, rfl⟩ := hr
    have hs1 := sigmoid_pos (((v / maxListQ (combined_margins m.n_clusters Q
      (compute_distances_to_hyperplanes m X)) : ℚ) : ℝ))
    have hs2 := sigmoid_lt_one (((v / maxListQ (combined_margins m.n_clusters Q
      (compute_distances_to_hyperplanes m X)) : ℚ) : ℝ))
    rcases hltc2 with h | h
    · rw [h]
      rw [if_neg (by norm_num)]
      refine ⟨by simp, by simp, ?_⟩
      intro p hp
      rcases List.mem_pair.mp hp with rfl | rfl
      · exact ⟨hs1, hs2⟩
      · constructor <;> linarith
    · rw [h]
      rw [if_pos rfl]
      refine ⟨by simp, by simp, ?_⟩
      intro p hp
      rcases List.mem_pair.mp hp with rfl | rfl
      · constructor <;> linarith
      · exact ⟨hs1, hs2⟩
  · intro i hi
    have hi2 : i < (combined_margins m.n_clusters Q
        (compute_distances_to_hyperplanes m X)).length := by rw [hclen]; exact hi
    rw [hdef]
    rw [map_getD _ [] 0 _ i hi2]
    rcases hltc2 with h | h
    · rw [h]
      rw [if_neg (by norm_num)]
      constructor <;> simp
    · rw [h]
      rw [if_pos rfl]
      constructor <;> simp

/-- Witness for claim C6 on a concrete one-cluster k-means model and the
one-sample batch `[[1]]`. -/
theorem predict_classif_proba_rows_witness :
    ((mWit.clustering_method_name = "k_means" ∨
        mWit.clustering_method_name = "spherical_gaussian_mixture" ∨
        mWit.clustering_method_name = "full_gaussian_mixture") ∧
      (∀ M, (mWit.gmmPredictProba M).length = M.length) ∧
      (∀ M, ∀ r ∈ mWit.gmmPredictProba M, r.length = mWit.n_clusters) ∧
      mWit.label_to_cluster ≤ 1 ∧ ([[(1 : ℚ)]] ≠ ([] : List (List ℚ)))) ∧
    (∃ Q rows, predict_clusters mWit [[1]] = PyOutcome.returns (PyVal.val Q) ∧
      predict_classif_proba mWit [[1]] = PyOutcome.returns rows ∧
      rows.length = [[(1 : ℚ)]].length ∧
      (∀ r ∈ rows, r.length = 2 ∧ r.sum = 1 ∧ ∀ p ∈ r, 0 < p ∧ p < 1) ∧
      (∀ i, i < [[(1 : ℚ)]].length →
        (rows.getD i []).getD mWit.label_to_cluster 0 =
          sigmoid ((((combined_margins mWit.n_clusters Q
              (compute_distances_to_hyperplanes mWit [[1]])).getD i 0 /
            maxListQ (combined_margins mWit.n_clusters Q
              (compute_distances_to_hyperplanes mWit [[1]])) : ℚ) : ℝ)) ∧
        (rows.getD i []).getD (1 - mWit.label_to_cluster) 0 =
          1 - (rows.getD i []).getD mWit.label_to_cluster 0)) :=
  ⟨⟨Or.inl rfl, fun M => by simp [mWit], fun M r hr => by
      simp only [mWit] at hr ⊢
      rw [List.mem_map] at hr
      obtain ⟨x, _, rfl⟩ := hr
      rfl,
    by norm_num [mWit], by simp⟩,
    predict_classif_proba_rows mWit [[1]] (Or.inl rfl) (fun M => by simp [mWit])
      (fun M r hr => by
        simp only [mWit] at hr ⊢
        rw [List.mem_map] at hr
        obtain ⟨x, _, rfl⟩ := hr
        rfl)
      (by norm_num [mWit]) (by simp)⟩

/-- Claim C7: on a fitted model with a recognized clustering method, `predict`
forces the cluster prediction of every sample whose binary ground-truth label
(when `y_true` is supplied) or classification decision (otherwise) differs from
`label_to_cluster` to the sentinel `-1`, while every other sample receives a
real cluster index in `[0, n_clusters)`; `predict_proba` likewise overwrites
the whole cluster-probability row of such samples with `-1`. -/
theorem predict_cluster_sentinel (m : UCSLModel) (X : List (List ℚ)) (yt : List ℤ)
    (hname : m.clustering_method_name = "k_means" ∨
      m.clustering_method_name = "spherical_gaussian_mixture" ∨
      m.clustering_method_name = "full_gaussian_mixture")
    (hglen : ∀ M, (m.gmmPredictProba M).length = M.length)
    (hgrow : ∀ M, ∀ r ∈ m.gmmPredictProba M, r.length = m.n_clusters)
    (hK : 1 ≤ m.n_clusters) (hltc : m.label_to_cluster ≤ 1)
    (hX : X ≠ []) (hylen : yt.length = X.length)
    (hy : ∀ v ∈ yt, v = 0 ∨ v = 1) :
    (∃ res, predict m X (some yt) = PyOutcome.returns res ∧ res.1 = yt ∧
      res.2.length = X.length ∧
      ∀ i, i < X.length →
        (yt.getD i 0 ≠ (m.label_to_cluster : ℤ) → res.2.getD i 0 = -1) ∧
        (yt.getD i 0 = (m.label_to_cluster : ℤ) →
          0 ≤ res.2.getD i 0 ∧ res.2.getD i 0 < (m.n_clusters : ℤ))) ∧
    (∃ res2, predict m X none = PyOutcome.returns res2 ∧ res2.2.length = X.length ∧
      ∀ i, i < X.length →
        (res2.1.getD i 0 ≠ (m.label_to_cluster : ℤ) → res2.2.getD i 0 = -1) ∧
        (res2.1.getD i 0 = (m.label_to_cluster : ℤ) →
          0 ≤ res2.2.getD i 0 ∧ res2.2.getD i 0 < (m.n_clusters : ℤ))) ∧
    (∃ resP, predict_proba m X (some yt) = PyOutcome.returns resP ∧
      ∀ i, i < X.length → yt.getD i 0 ≠ (m.label_to_cluster : ℤ) →
        ∀ q ∈ resP.2.getD i [], q = (-1 : ℚ)) := by
  obtain ⟨Q, rows, hQ, hP, hdef, hrowslen, hQlen, hQrow⟩ :=
    predict_classif_proba_ok m X hname hglen hgrow hX
  have hlz : (m.label_to_cluster : ℤ) = 0 ∨ (m.label_to_cluster : ℤ) = 1 := by omega
  have hr2 : ∀ r ∈ rows, r.length = 2 := by
    intro r hr
    rw [hdef, List.mem_map] at hr
    obtain ⟨v, _, rfl⟩ := hr
    by_cases hc : m.label_to_cluster = 1
    · rw [if_pos hc]; rfl
    · rw [if_neg hc]; rfl
  have hargQ : ∀ i, i < X.length →
      (0 : ℤ) ≤ ((argmaxIdx (Q.getD i []) : ℕ) : ℤ) ∧
      ((argmaxIdx (Q.getD i []) : ℕ) : ℤ) < (m.n_clusters : ℤ) := by
    intro i hi
    have hrQ : (Q.getD i []).length = m.n_clusters :=
      hQrow _ (getD_mem Q i [] (by rw [hQlen]; exact hi))
    have hargm : argmaxIdx (Q.getD i []) < m.n_clusters := by
      rw [← hrQ]
      apply argmaxIdx_lt_length
      intro hnil
      rw [hnil] at hrQ
      simp at hrQ
      omega
    exact ⟨Int.natCast_nonneg _, by exact_mod_cast hargm⟩
  refine ⟨?_, ?_, ?_⟩
  · -- predict with ground truth supplied
    refine ⟨(yt, List.zipWith
        (fun lbl c => if lbl = 1 - (m.label_to_cluster : ℤ) then -1 else c) yt
        (Q.map fun r => (argmaxIdx r : ℤ))), ?_, rfl, ?_, ?_⟩
    · simp only [predict, hP, hQ]
    · dsimp only
      rw [List.length_zipWith, List.length_map, hylen, hQlen, min_self]
    · intro i hi
      dsimp only
      have hiy : i < yt.length := by rw [hylen]; exact hi
      have hiq : i < (Q.map fun r => ((argmaxIdx r : ℕ) : ℤ)).length := by
        rw [List.length_map, hQlen]; exact hi
      have hzip := zipWith_getD
        (fun lbl c => if lbl = 1 - (m.label_to_cluster : ℤ) then -1 else c) 0 0 0
        yt (Q.map fun r => ((argmaxIdx r : ℕ) : ℤ)) i hiy hiq
      have hmg := map_getD (fun r => ((argmaxIdx r : ℕ) : ℤ)) 0 [] Q i
        (by rw [hQlen]; exact hi)
      have hyi : yt.getD i 0 = 0 ∨ yt.getD i 0 = 1 := hy _ (getD_mem yt i 0 hiy)
      constructor
      · intro hne
        have hmask : yt.getD i 0 = 1 - (m.label_to_cluster : ℤ) := by
          rcases hyi with h0 | h0 <;> rcases hlz with h1 | h1 <;> omega
        simp only [hzip]
        rw [if_pos hmask]
      · intro heq
        have hnot : ¬ (yt.getD i 0 = 1 - (m.label_to_cluster : ℤ)) := by
          rcases hlz with h1 | h1 <;> omega
        simp only [hzip, hmg]
        rw [if_neg hnot]
        exact hargQ i hi
  · -- predict with the classification decision as the mask
    refine ⟨(rows.map fun r => (argmaxIdx r : ℤ), List.zipWith
        (fun lbl c => if lbl = 1 - (m.label_to_cluster : ℤ) then -1 else c)
        (rows.map fun r => (argmaxIdx r : ℤ))
        (Q.map fun r => (argmaxIdx r : ℤ))), ?_, ?_, ?_⟩
    · simp only [predict, hP, hQ]
    · dsimp only
      rw [List.length_zipWith, List.length_map, List.length_map, hrowslen, hQlen, min_self]
    · intro i hi
      dsimp only
      have hil : i < (rows.map fun r => ((argmaxIdx r : ℕ) : ℤ)).length := by
        rw [List.length_map, hrowslen]; exact hi
      have hiq : i < (Q.map fun r => ((argmaxIdx r : ℕ) : ℤ)).length := by
        rw [List.length_map, hQlen]; exact hi
      have hzip := zipWith_getD
        (fun lbl c => if lbl = 1 - (m.label_to_cluster : ℤ) then -1 else c) 0 0 0
        (rows.map fun r => ((argmaxIdx r : ℕ) : ℤ))
        (Q.map fun r => ((argmaxIdx r : ℕ) : ℤ)) i hil hiq
      have hmg := map_getD (fun r => ((argmaxIdx r : ℕ) : ℤ)) 0 [] Q i
        (by rw [hQlen]; exact hi)
      have hlab := map_getD (fun r => ((argmaxIdx r : ℕ) : ℤ)) 0 [] rows i
        (by rw [hrowslen]; exact hi)
      have hrow2 : (rows.getD i []).length = 2 :=
        hr2 _ (getD_mem rows i [] (by rw [hrowslen]; exact hi))
      have harg2 : argmaxIdx (rows.getD i []) < 2 := by
        rw [← hrow2]
        apply argmaxIdx_lt_length
        intro hnil
        rw [hnil] at hrow2
        simp at hrow2
      have hv : (rows.map fun r => ((argmaxIdx r : ℕ) : ℤ)).getD i 0 = 0 ∨
          (rows.map fun r => ((argmaxIdx r : ℕ) : ℤ)).getD i 0 = 1 := by
        simp only [hlab]
        rcases (by omega : argmaxIdx (rows.getD i []) = 0 ∨
          argmaxIdx (rows.getD i []) = 1) with h | h <;> rw [h]
        · exact Or.inl rfl
        · exact Or.inr rfl
      constructor
      · intro hne
        have hmask : (rows.map fun r => ((argmaxIdx r : ℕ) : ℤ)).getD i 0 =
            1 - (m.label_to_cluster : ℤ) := by
          rcases hv with h0 | h0 <;> rcases hlz with h1 | h1 <;> omega
        simp only [hzip]
        rw [if_pos hmask]
      · intro heq
        have hnot : ¬ ((rows.map fun r => ((argmaxIdx r : ℕ) : ℤ)).getD i 0 =
            1 - (m.label_to_cluster : ℤ)) := by
          rcases hlz with h1 | h1 <;> omega
        simp only [hzip, hmg]
        rw [if_neg hnot]
        exact hargQ i hi
  · -- predict_proba masks the whole probability row
    refine ⟨(Sum.inr yt, List.zipWith
        (fun lbl row => if lbl = 1 - (m.label_to_cluster : ℤ)
          then row.map (fun _ => (-1 : ℚ)) else row) yt Q), ?_, ?_⟩
    · simp only [predict_proba, hP, hQ]
    · intro i hi hne
      dsimp only
      have hiy : i < yt.length := by rw [hylen]; exact hi
      have hzip := zipWith_getD
        (fun lbl row => if lbl = 1 - (m.label_to_cluster : ℤ)
          then row.map (fun _ => (-1 : ℚ)) else row) [] 0 [] yt Q i hiy
        (by rw [hQlen]; exact hi)
      have hyi : yt.getD i 0 = 0 ∨ yt.getD i 0 = 1 := hy _ (getD_mem yt i 0 hiy)
      have hmask : yt.getD i 0 = 1 - (m.label_to_cluster : ℤ) := by
        rcases hyi with h0 | h0 <;> rcases hlz with h1 | h1 <;> omega
      simp only [hzip]
      rw [if_pos hmask]
      intro q hq
      rw [List.mem_map] at hq
      obtain ⟨_, _, rfl⟩ := hq
      rfl

/-- Witness for claim C7 on a concrete one-cluster k-means model, the
one-sample batch `[[1]]` and ground truth `[1]`. -/
theorem predict_cluster_sentinel_witness :
    ((mWit.clustering_method_name = "k_means" ∨
        mWit.clustering_method_name = "spherical_gaussian_mixture" ∨
        mWit.clustering_method_name = "full_gaussian_mixture") ∧
      (∀ M, (mWit.gmmPredictProba M).length = M.length) ∧
      (∀ M, ∀ r ∈ mWit.gmmPredictProba M, r.length = mWit.n_clusters) ∧
      1 ≤ mWit.n_clusters ∧ mWit.label_to_cluster ≤ 1 ∧
      ([[(1 : ℚ)]] ≠ ([] : List (List ℚ))) ∧
      ([(1 : ℤ)].length = [[(1 : ℚ)]].length) ∧
      (∀ v ∈ [(1 : ℤ)], v = 0 ∨ v = 1)) ∧
    ((∃ res, predict mWit [[1]] (some [1]) = PyOutcome.returns res ∧ res.1 = [1] ∧
      res.2.length = [[(1 : ℚ)]].length ∧
      ∀ i, i < [[(1 : ℚ)]].length →
        ([(1 : ℤ)].getD i 0 ≠ (mWit.label_to_cluster : ℤ) → res.2.getD i 0 = -1) ∧
        ([(1 : ℤ)].getD i 0 = (mWit.label_to_cluster : ℤ) →
          0 ≤ res.2.getD i 0 ∧ res.2.getD i 0 < (mWit.n_clusters : ℤ))) ∧
    (∃ res2, predict mWit [[1]] none = PyOutcome.returns res2 ∧
      res2.2.length = [[(1 : ℚ)]].length ∧
      ∀ i, i < [[(1 : ℚ)]].length →
        (res2.1.getD i 0 ≠ (mWit.label_to_cluster : ℤ) → res2.2.getD i 0 = -1) ∧
        (res2.1.getD i 0 = (mWit.label_to_cluster : ℤ) →
          0 ≤ res2.2.getD i 0 ∧ res2.2.getD i 0 < (mWit.n_clusters : ℤ))) ∧
    (∃ resP, predict_proba mWit [[1]] (some [1]) = PyOutcome.returns resP ∧
      ∀ i, i < [[(1 : ℚ)]].length → [(1 : ℤ)].getD i 0 ≠ (mWit.label_to_cluster : ℤ) →
        ∀ q ∈ resP.2.getD i [], q = (-1 : ℚ))) :=
  ⟨⟨Or.inl rfl, fun M => by simp [mWit], fun M r hr => by
      simp only [mWit] at hr ⊢
      rw [List.mem_map] at hr
      obtain ⟨x, _, rfl⟩ := hr
      rfl,
    by norm_num [mWit], by norm_num [mWit], by simp, by simp, by decide⟩,
    predict_cluster_sentinel mWit [[1]] [1] (Or.inl rfl) (fun M => by simp [mWit])
      (fun M r hr => by
        simp only [mWit] at hr ⊢
        rw [List.mem_map] at hr
        obtain ⟨x, _, rfl⟩ := hr
        rfl)
      (by norm_num [mWit]) (by norm_num [mWit]) (by simp) (by simp) (by decide)⟩
